import Mathlib

/-!
Shallow embedding of the `database` package of firyx/boot.dev-api-backend:
a single-file JSON-backed record store holding a map of users (keyed by
email) and a map of posts (keyed by a generated id).

Modelling decisions, each noted again at the definition it affects:
* Go maps (`map[string]User`, `map[string]Post`) are association lists with
  Go insert/lookup/delete semantics (`mapSet` replaces in place, `mapGet`
  finds the first binding, `mapDel` removes the key).
* `time.Time` values are abstract UTC instants, modelled as `Int`; each
  operation that calls `time.Now().UTC()` takes the current instant as an
  explicit `now` argument.
* `uuid.NewString()` is an external random generator; `CreatePost` takes
  the generated string as an explicit `genId` argument (an oracle).
* The file system is the content of the one file at the client's path:
  absent, permission-denied, or present with data.  File data is either a
  JSON value (a small JSON AST) or raw bytes that do not parse as JSON.
* `encoding/json` marshalling of the schema is a total function into the
  JSON AST; unmarshalling is a structural decoder.  The decoder requires
  every struct field to be present with the right type (Go's zero-value
  tolerance for absent members is not modelled; no claim quantifies over
  hand-crafted documents with absent members).  Unmarshal error messages
  are abstracted to one constant string.
* Go `error` values are their message strings, exactly as built by the
  `fmt.Errorf` calls in the source.
-/

/-- Go struct `User` (part_000 lines 21-27). -/
structure User where
  createdAt : Int
  email : String
  password : String
  name : String
  age : Int
deriving DecidableEq, Repr

/-- Go struct `Post` (part_000 lines 29-34). -/
structure Post where
  id : String
  createdAt : Int
  userEmail : String
  text : String
deriving DecidableEq, Repr

/-- Go map lookup `m[k]` (second return value `ok` is `isSome`). -/
def mapGet {α : Type} : List (String × α) → String → Option α
  | [], _ => none
  | (k', v) :: rest, k => if k' = k then some v else mapGet rest k

/-- Go map assignment `m[k] = v`: replaces the binding in place if the key
is present, otherwise adds it. -/
def mapSet {α : Type} : List (String × α) → String → α → List (String × α)
  | [], k, v => [(k, v)]
  | (k', v') :: rest, k, v =>
      if k' = k then (k, v) :: rest else (k', v') :: mapSet rest k v

/-- Go `delete(m, k)`: removes the binding for `k`. -/
def mapDel {α : Type} : List (String × α) → String → List (String × α)
  | [], _ => []
  | (k', v) :: rest, k =>
      if k' = k then mapDel rest k else (k', v) :: mapDel rest k

/-- Go struct `databaseSchema` (part_000 lines 16-19). -/
structure databaseSchema where
  users : List (String × User)
  posts : List (String × Post)
deriving DecidableEq, Repr

/-- The empty document, as built inside `createDB` (part_000 lines 43-46). -/
def emptyDB : databaseSchema := ⟨[], []⟩

/-- A small JSON AST: the image of `encoding/json` on this schema. -/
inductive Json where
  | null
  | jbool (b : Bool)
  | num (n : Int)
  | str (s : String)
  | obj (fields : List (String × Json))

/-- Content of the backing file: either data that parses as JSON, or raw
bytes that do not. -/
inductive FileData where
  | jsonData (j : Json)
  | rawData (s : String)

/-- State of the file at the client's path: absent (`ReadFile` fails with
"no such file or directory"), permission-denied (`ReadFile`/`WriteFile`
fail with a different error), or present with content. -/
inductive FSState where
  | absent
  | denied
  | file (d : FileData)

/-- Go struct `Client` (part_000 lines 12-14). -/
structure Client where
  path : String

/-- `NewClient` (part_000 lines 36-40). -/
def NewClient (path : String) : Client := ⟨path⟩

/-- Go `error` values are their message strings. -/
abbrev Err := String

/-- Message of the `os.ReadFile` error on a missing file. -/
def noSuchFileErr (path : String) : Err :=
  "open " ++ path ++ ": no such file or directory"

/-- Message of the `os` error on a permission-denied file. -/
def permissionErr (path : String) : Err :=
  "open " ++ path ++ ": permission denied"

/-- Abstracted message of a `json.Unmarshal` failure. -/
def unmarshalErr : Err := "json: cannot unmarshal data into databaseSchema"

/-- `fmt.Errorf("user with email %s already exists", email)` (line 115). -/
def userExistsErr (email : String) : Err :=
  "user with email " ++ email ++ " already exists"

/-- `fmt.Errorf("user with email %s doesn\x27t exist", email)` (lines 139/164/176). -/
def userNotFoundErr (email : String) : Err :=
  "user with email " ++ email ++ " doesn\x27t exist"

/-- `fmt.Errorf("post with id %s doesn\x27t exist", id)` (lines 217/242). -/
def postNotFoundErr (id : String) : Err :=
  "post with id " ++ id ++ " doesn\x27t exist"

/-- `os.ReadFile(c.path)` on the modelled file system. -/
def osReadFile (c : Client) : FSState → Except Err FileData
  | .absent => .error (noSuchFileErr c.path)
  | .denied => .error (permissionErr c.path)
  | .file d => .ok d

/-- `os.WriteFile(c.path, data, 0600)`: creates or overwrites the file;
fails only on a permission-denied path. -/
def osWriteFile (c : Client) (fs : FSState) (d : FileData) : Except Err FSState :=
  match fs with
  | .denied => .error (permissionErr c.path)
  | _ => .ok (.file d)

/-- `json.Marshal` of a `User`: field names as in the struct tags. -/
def encodeUser (u : User) : Json :=
  .obj [("createdAt", .num u.createdAt), ("email", .str u.email),
        ("password", .str u.password), ("name", .str u.name),
        ("age", .num u.age)]

/-- `json.Marshal` of a `Post`. -/
def encodePost (p : Post) : Json :=
  .obj [("id", .str p.id), ("createdAt", .num p.createdAt),
        ("userEmail", .str p.userEmail), ("text", .str p.text)]

/-- `json.Marshal` of the whole document. -/
def encodeSchema (db : databaseSchema) : Json :=
  .obj [("users", .obj (db.users.map (fun kv => (kv.1, encodeUser kv.2)))),
        ("posts", .obj (db.posts.map (fun kv => (kv.1, encodePost kv.2))))]

/-- `json.Marshal` producing file content (marshalling this schema never
fails in Go, so the model is total). -/
def jsonMarshal (db : databaseSchema) : FileData := .jsonData (encodeSchema db)

/-- `json.Unmarshal` of one `User` value. -/
def decodeUser (j : Json) : Except Err User :=
  match j with
  | .obj fields =>
      match mapGet fields "createdAt", mapGet fields "email",
            mapGet fields "password", mapGet fields "name",
            mapGet fields "age" with
      | some (.num t), some (.str e), some (.str pw), some (.str n),
        some (.num a) => .ok ⟨t, e, pw, n, a⟩
      | _, _, _, _, _ => .error unmarshalErr
  | _ => .error unmarshalErr

/-- `json.Unmarshal` of one `Post` value. -/
def decodePost (j : Json) : Except Err Post :=
  match j with
  | .obj fields =>
      match mapGet fields "id", mapGet fields "createdAt",
            mapGet fields "userEmail", mapGet fields "text" with
      | some (.str i), some (.num t), some (.str e), some (.str tx) =>
          .ok ⟨i, t, e, tx⟩
      | _, _, _, _ => .error unmarshalErr
  | _ => .error unmarshalErr

/-- Decode the entries of the `users` object into the Go map. -/
def decodeUserEntries : List (String × Json) → Except Err (List (String × User))
  | [] => .ok []
  | (k, v) :: rest =>
      match decodeUser v with
      | .error e => .error e
      | .ok u =>
          match decodeUserEntries rest with
          | .error e => .error e
          | .ok us => .ok ((k, u) :: us)

/-- Decode the entries of the `posts` object into the Go map. -/
def decodePostEntries : List (String × Json) → Except Err (List (String × Post))
  | [] => .ok []
  | (k, v) :: rest =>
      match decodePost v with
      | .error e => .error e
      | .ok p =>
          match decodePostEntries rest with
          | .error e => .error e
          | .ok ps => .ok ((k, p) :: ps)

/-- `json.Unmarshal` of the whole document from a JSON value. -/
def decodeSchema (j : Json) : Except Err databaseSchema :=
  match j with
  | .obj fields =>
      match mapGet fields "users", mapGet fields "posts" with
      | some (.obj ue), some (.obj pe) =>
          match decodeUserEntries ue with
          | .error e => .error e
          | .ok us =>
              match decodePostEntries pe with
              | .error e => .error e
              | .ok ps => .ok ⟨us, ps⟩
      | _, _ => .error unmarshalErr
  | _ => .error unmarshalErr

/-- `json.Unmarshal(data, db)` on raw file content. -/
def jsonUnmarshal : FileData → Except Err databaseSchema
  | .jsonData j => decodeSchema j
  | .rawData _ => .error unmarshalErr

/-- `Client.createDB` (part_000 lines 42-52): marshal the empty document
and write it. -/
def Client.createDB (c : Client) (fs : FSState) : Except Err Unit × FSState :=
  match osWriteFile c fs (jsonMarshal emptyDB) with
  | .ok fs' => (.ok (), fs')
  | .error e => (.error e, fs)

/-- `Client.EnsureDB` (part_000 lines 54-86).  The source detects a missing
file with `strings.Contains(err.Error(), "no such file or directory")`;
for the errors our file-system model produces this is exactly equality
with `noSuchFileErr c.path`. -/
def Client.EnsureDB (c : Client) (fs : FSState) : Except Err Unit × FSState :=
  match osReadFile c fs with
  | .ok data =>
      match jsonUnmarshal data with
      | .ok _ => (.ok (), fs)
      | .error e => (.error e, fs)
  | .error e =>
      if e = noSuchFileErr c.path then
        match c.createDB fs with
        | (.error e1, fs') => (.error e1, fs')
        | (.ok _, fs') =>
            match osReadFile c fs' with
            | .error e2 => (.error e2, fs')
            | .ok data =>
                match jsonUnmarshal data with
                | .ok _ => (.ok (), fs')
                | .error e3 => (.error e3, fs')
      else (.error e, fs)

/-- `Client.updateDB` (part_000 lines 88-94): marshal and overwrite. -/
def Client.updateDB (c : Client) (db : databaseSchema) (fs : FSState) :
    Except Err Unit × FSState :=
  match osWriteFile c fs (jsonMarshal db) with
  | .ok fs' => (.ok (), fs')
  | .error e => (.error e, fs)

/-- `Client.readDB` (part_000 lines 96-107): read the file and unmarshal.
It does not modify the file, so it returns no new state. -/
def Client.readDB (c : Client) (fs : FSState) : Except Err databaseSchema :=
  match osReadFile c fs with
  | .error e => .error e
  | .ok data => jsonUnmarshal data

/-- `Client.CreateUser` (part_000 lines 109-130).  `now` is the value of
`time.Now().UTC()`. -/
def Client.CreateUser (c : Client) (now : Int)
    (email password name : String) (age : Int) (fs : FSState) :
    Except Err User × FSState :=
  match c.readDB fs with
  | .error e => (.error e, fs)
  | .ok db =>
      match mapGet db.users email with
      | some _ => (.error (userExistsErr email), fs)
      | none =>
          let user : User := ⟨now, email, password, name, age⟩
          match c.updateDB { db with users := mapSet db.users email user } fs with
          | (.ok _, fs') => (.ok user, fs')
          | (.error e, fs') => (.error e, fs')

/-- `Client.UpdateUser` (part_000 lines 132-155). -/
def Client.UpdateUser (c : Client)
    (email password name : String) (age : Int) (fs : FSState) :
    Except Err User × FSState :=
  match c.readDB fs with
  | .error e => (.error e, fs)
  | .ok db =>
      match mapGet db.users email with
      | none => (.error (userNotFoundErr email), fs)
      | some user0 =>
          let oldEmail := user0.email
          let user : User :=
            { user0 with email := email, password := password,
                         name := name, age := age }
          let users1 := mapSet db.users email user
          let users2 := if oldEmail ≠ email then mapDel users1 oldEmail else users1
          match c.updateDB { db with users := users2 } fs with
          | (.ok _, fs') => (.ok user, fs')
          | (.error e, fs') => (.error e, fs')

/-- `Client.GetUser` (part_000 lines 157-167): read-only. -/
def Client.GetUser (c : Client) (email : String) (fs : FSState) :
    Except Err User :=
  match c.readDB fs with
  | .error e => .error e
  | .ok db =>
      match mapGet db.users email with
      | none => .error (userNotFoundErr email)
      | some u => .ok u

/-- `Client.DeleteUser` (part_000 lines 169-184). -/
def Client.DeleteUser (c : Client) (email : String) (fs : FSState) :
    Except Err Unit × FSState :=
  match c.readDB fs with
  | .error e => (.error e, fs)
  | .ok db =>
      match mapGet db.users email with
      | none => (.error (userNotFoundErr email), fs)
      | some _ =>
          match c.updateDB { db with users := mapDel db.users email } fs with
          | (.ok _, fs') => (.ok (), fs')
          | (.error e, fs') => (.error e, fs')

/-- `Client.CreatePost` (part_000 lines 186-208).  `genId` is the value of
`uuid.NewString()`; the source re-reads the database through `c.GetUser`
for the existence check, on the same (unchanged) file state. -/
def Client.CreatePost (c : Client) (now : Int) (genId : String)
    (userEmail text : String) (fs : FSState) : Except Err Post × FSState :=
  match c.readDB fs with
  | .error e => (.error e, fs)
  | .ok db =>
      match c.GetUser userEmail fs with
      | .error e => (.error e, fs)
      | .ok _ =>
          let post : Post := ⟨genId, now, userEmail, text⟩
          match c.updateDB { db with posts := mapSet db.posts genId post } fs with
          | (.ok _, fs') => (.ok post, fs')
          | (.error e, fs') => (.error e, fs')

/-- `Client.GetPost` (part_000 lines 210-220): read-only. -/
def Client.GetPost (c : Client) (id : String) (fs : FSState) :
    Except Err Post :=
  match c.readDB fs with
  | .error e => .error e
  | .ok db =>
      match mapGet db.posts id with
      | none => .error (postNotFoundErr id)
      | some p => .ok p

/-- The loop of `Client.GetPosts`: collect the values whose `userEmail`
matches (the Go `range` order is arbitrary; the model iterates in list
order, and the claims about this operation are at the level of sets). -/
def collectPosts (userEmail : String) : List (String × Post) → List Post
  | [] => []
  | (_, p) :: rest =>
      if p.userEmail = userEmail then p :: collectPosts userEmail rest
      else collectPosts userEmail rest

/-- `Client.GetPosts` (part_000 lines 222-234), the spec's
`ListPostsByUser`: read-only. -/
def Client.GetPosts (c : Client) (userEmail : String) (fs : FSState) :
    Except Err (List Post) :=
  match c.readDB fs with
  | .error e => .error e
  | .ok db => .ok (collectPosts userEmail db.posts)

/-- `Client.DeletePost` (part_000 lines 236-250). -/
def Client.DeletePost (c : Client) (id : String) (fs : FSState) :
    Except Err Unit × FSState :=
  match c.readDB fs with
  | .error e => (.error e, fs)
  | .ok db =>
      match mapGet db.posts id with
      | none => (.error (postNotFoundErr id), fs)
      | some _ =>
          match c.updateDB { db with posts := mapDel db.posts id } fs with
          | (.ok _, fs') => (.ok (), fs')
          | (.error e, fs') => (.error e, fs')

/-- The error taxonomy exactly as the spec states it (§7): four typed
values.  This definition follows the spec's words, not the source; it
exists to compare the spec's claim "every error is a typed value from this
taxonomy" against the string errors the source actually returns. -/
inductive StoreError where
  | NotFound
  | AlreadyExists
  | CorruptStore
  | IOError
deriving DecidableEq, Fintype

/-- One request against the store: `EnsureDB`, the four user operations or
the four post operations, with all inputs (including the sampled clock and
generated id) packaged in. -/
inductive Op where
  | ensureDB
  | createUser (now : Int) (email password name : String) (age : Int)
  | updateUser (email password name : String) (age : Int)
  | getUser (email : String)
  | deleteUser (email : String)
  | createPost (now : Int) (genId : String) (userEmail text : String)
  | getPost (id : String)
  | getPosts (userEmail : String)
  | deletePost (id : String)

/-- The error component of an operation's result. -/
def errOf {α : Type} : Except Err α → Option Err
  | .ok _ => none
  | .error e => some e

/-- Run one operation, keeping only its error (if any) and the resulting
file state.  Read-only operations leave the state unchanged. -/
def applyOp (c : Client) (op : Op) (fs : FSState) : Option Err × FSState :=
  match op with
  | .ensureDB => let r := c.EnsureDB fs; (errOf r.1, r.2)
  | .createUser now e pw n a => let r := c.CreateUser now e pw n a fs; (errOf r.1, r.2)
  | .updateUser e pw n a => let r := c.UpdateUser e pw n a fs; (errOf r.1, r.2)
  | .getUser e => (errOf (c.GetUser e fs), fs)
  | .deleteUser e => let r := c.DeleteUser e fs; (errOf r.1, r.2)
  | .createPost now id e t => let r := c.CreatePost now id e t fs; (errOf r.1, r.2)
  | .getPost id => (errOf (c.GetPost id fs), fs)
  | .getPosts e => (errOf (c.GetPosts e fs), fs)
  | .deletePost id => let r := c.DeletePost id fs; (errOf r.1, r.2)

/-- The five families of error messages the source can actually return:
three `fmt.Errorf` formats embedding the offending key, the unmarshal
error, and the two file-system errors. -/
def ErrMsgFamilies (path : String) (e : Err) : Prop :=
  (∃ s, e = userExistsErr s) ∨ (∃ s, e = userNotFoundErr s) ∨
  (∃ s, e = postNotFoundErr s) ∨ e = unmarshalErr ∨
  e = noSuchFileErr path ∨ e = permissionErr path

/-- Key-field coherence: every users entry's key equals the stored email,
every posts entry's key equals the stored id. -/
def Coherent (db : databaseSchema) : Prop :=
  (∀ k u, (k, u) ∈ db.users → u.email = k) ∧
  (∀ k p, (k, p) ∈ db.posts → p.id = k)

/-- File states reachable from a document with two empty maps by running
store operations. -/
inductive Reach (c : Client) : FSState → Prop where
  | init (fs : FSState) (h : c.readDB fs = .ok emptyDB) : Reach c fs
  | step (fs : FSState) (op : Op) (h : Reach c fs) : Reach c (applyOp c op fs).2

/-- Concrete fixture user. -/
def exUser : User := ⟨0, "a@x.com", "pw", "Ann", 30⟩

/-- Concrete fixture post, owned by `exUser`. -/
def exPost : Post := ⟨"P", 1, "a@x.com", "hello"⟩

/-- Concrete fixture document: one user, one post. -/
def exDB : databaseSchema := ⟨[("a@x.com", exUser)], [("P", exPost)]⟩

/-- Concrete fixture client. -/
def exC : Client := NewClient "database.json"

/-! ## Helper lemmas: map operations -/

theorem mapGet_mapSet_self {α : Type} (m : List (String × α)) (k : String) (v : α) :
    mapGet (mapSet m k v) k = some v := by
  induction m with
  | nil => simp [mapSet, mapGet]
  | cons kv rest ih =>
      obtain ⟨k', v'⟩ := kv
      by_cases h : k' = k <;> simp [mapSet, mapGet, h, ih]

theorem mapGet_mapSet_ne {α : Type} (m : List (String × α)) (k k' : String) (v : α)
    (h : k' ≠ k) : mapGet (mapSet m k v) k' = mapGet m k' := by
  have h2 : ¬ (k = k') := fun he => h he.symm
  induction m with
  | nil => simp [mapSet, mapGet, h2]
  | cons kv rest ih =>
      obtain ⟨k0, v0⟩ := kv
      by_cases h0 : k0 = k
      · subst h0
        simp [mapSet, mapGet, h2]
      · simp [mapSet, mapGet, h0, ih]

theorem mapGet_mapDel_self {α : Type} (m : List (String × α)) (k : String) :
    mapGet (mapDel m k) k = none := by
  induction m with
  | nil => simp [mapDel, mapGet]
  | cons kv rest ih =>
      obtain ⟨k0, v0⟩ := kv
      by_cases h0 : k0 = k <;> simp [mapDel, mapGet, h0, ih]

theorem mapGet_mapDel_ne {α : Type} (m : List (String × α)) (k k' : String)
    (h : k' ≠ k) : mapGet (mapDel m k) k' = mapGet m k' := by
  have h2 : ¬ (k = k') := fun he => h he.symm
  induction m with
  | nil => simp [mapDel]
  | cons kv rest ih =>
      obtain ⟨k0, v0⟩ := kv
      by_cases h0 : k0 = k
      · subst h0
        simp [mapDel, mapGet, h2, ih]
      · simp [mapDel, mapGet, h0, ih]

theorem mem_mapSet {α : Type} (m : List (String × α)) (k : String) (v : α)
    (x : String × α) (hx : x ∈ mapSet m k v) : x ∈ m ∨ x = (k, v) := by
  induction m with
  | nil => simp [mapSet] at hx; simp [hx]
  | cons kv rest ih =>
      obtain ⟨k0, v0⟩ := kv
      by_cases h0 : k0 = k
      · simp [mapSet, h0] at hx
        rcases hx with h | h
        · right; simp [h]
        · left; simp [h]
      · simp [mapSet, h0] at hx
        rcases hx with h | h
        · left; simp [h]
        · rcases ih h with h' | h'
          · left; simp [h']
          · right; exact h'

theorem mem_mapDel {α : Type} (m : List (String × α)) (k : String)
    (x : String × α) (hx : x ∈ mapDel m k) : x ∈ m := by
  induction m with
  | nil => simp [mapDel] at hx
  | cons kv rest ih =>
      obtain ⟨k0, v0⟩ := kv
      by_cases h0 : k0 = k
      · simp [mapDel, h0] at hx
        simp [ih hx]
      · simp [mapDel, h0] at hx
        rcases hx with h | h
        · simp [h]
        · simp [ih h]

/-! ## Helper lemmas: marshal/unmarshal round trip -/

theorem decodeUser_encodeUser (u : User) : decodeUser (encodeUser u) = .ok u := rfl

theorem decodePost_encodePost (p : Post) : decodePost (encodePost p) = .ok p := rfl

theorem decodeUserEntries_encode (l : List (String × User)) :
    decodeUserEntries (l.map (fun kv => (kv.1, encodeUser kv.2))) = .ok l := by
  induction l with
  | nil => rfl
  | cons kv rest ih => simp [decodeUserEntries, decodeUser_encodeUser, ih]

theorem decodePostEntries_encode (l : List (String × Post)) :
    decodePostEntries (l.map (fun kv => (kv.1, encodePost kv.2))) = .ok l := by
  induction l with
  | nil => rfl
  | cons kv rest ih => simp [decodePostEntries, decodePost_encodePost, ih]

theorem decodeSchema_encodeSchema (db : databaseSchema) :
    decodeSchema (encodeSchema db) = .ok db := by
  simp [decodeSchema, encodeSchema, mapGet, decodeUserEntries_encode,
        decodePostEntries_encode]

theorem readDB_jsonMarshal (c : Client) (db : databaseSchema) :
    c.readDB (.file (jsonMarshal db)) = .ok db := by
  simp [Client.readDB, osReadFile, jsonMarshal, jsonUnmarshal,
        decodeSchema_encodeSchema]

theorem updateDB_not_denied (c : Client) (db : databaseSchema) (fs : FSState)
    (h : fs ≠ .denied) : c.updateDB db fs = (.ok (), .file (jsonMarshal db)) := by
  cases fs <;> simp_all [Client.updateDB, osWriteFile]

/-! ## Helper lemmas: which errors each layer can produce -/

theorem decodeUser_error (j : Json) (e : Err) (h : decodeUser j = .error e) :
    e = unmarshalErr := by
  unfold decodeUser at h
  repeat' split at h
  all_goals simp_all

theorem decodePost_error (j : Json) (e : Err) (h : decodePost j = .error e) :
    e = unmarshalErr := by
  unfold decodePost at h
  repeat' split at h
  all_goals simp_all

theorem decodeUserEntries_error (l : List (String × Json)) (e : Err)
    (h : decodeUserEntries l = .error e) : e = unmarshalErr := by
  induction l with
  | nil => simp [decodeUserEntries] at h
  | cons kv rest ih =>
      obtain ⟨k, v⟩ := kv
      unfold decodeUserEntries at h
      cases hu : decodeUser v with
      | error e' =>
          rw [hu] at h
          simp at h
          rw [← h]
          exact decodeUser_error v e' hu
      | ok u =>
          rw [hu] at h
          cases hr : decodeUserEntries rest with
          | error e' =>
              rw [hr] at h
              simp at h
              subst h
              exact ih hr
          | ok us => rw [hr] at h; simp at h

theorem decodePostEntries_error (l : List (String × Json)) (e : Err)
    (h : decodePostEntries l = .error e) : e = unmarshalErr := by
  induction l with
  | nil => simp [decodePostEntries] at h
  | cons kv rest ih =>
      obtain ⟨k, v⟩ := kv
      unfold decodePostEntries at h
      cases hu : decodePost v with
      | error e' =>
          rw [hu] at h
          simp at h
          rw [← h]
          exact decodePost_error v e' hu
      | ok p =>
          rw [hu] at h
          cases hr : decodePostEntries rest with
          | error e' =>
              rw [hr] at h
              simp at h
              subst h
              exact ih hr
          | ok ps => rw [hr] at h; simp at h

theorem decodeSchema_error (j : Json) (e : Err) (h : decodeSchema j = .error e) :
    e = unmarshalErr := by
  unfold decodeSchema at h
  split at h
  case _ fields =>
    split at h
    case _ ue pe hu hp =>
      cases hue : decodeUserEntries ue with
      | error e' =>
          rw [hue] at h
          simp at h
          subst h
          exact decodeUserEntries_error ue e' hue
      | ok us =>
          rw [hue] at h
          cases hpe : decodePostEntries pe with
          | error e' =>
              rw [hpe] at h
              simp at h
              subst h
              exact decodePostEntries_error pe e' hpe
          | ok ps => rw [hpe] at h; simp at h
    case _ => simp_all
  case _ => simp_all

theorem jsonUnmarshal_error (d : FileData) (e : Err)
    (h : jsonUnmarshal d = .error e) : e = unmarshalErr := by
  cases d with
  | jsonData j => exact decodeSchema_error j e h
  | rawData s => simp [jsonUnmarshal] at h; exact h.symm

theorem readDB_error (c : Client) (fs : FSState) (e : Err)
    (h : c.readDB fs = .error e) :
    e = noSuchFileErr c.path ∨ e = permissionErr c.path ∨ e = unmarshalErr := by
  cases fs with
  | absent => simp [Client.readDB, osReadFile] at h; left; exact h.symm
  | denied => simp [Client.readDB, osReadFile] at h; right; left; exact h.symm
  | file d =>
      simp [Client.readDB, osReadFile] at h
      right; right; exact jsonUnmarshal_error d e h

theorem updateDB_error (c : Client) (db : databaseSchema) (fs : FSState)
    (e : Err) (fs' : FSState) (h : c.updateDB db fs = (.error e, fs')) :
    e = permissionErr c.path ∧ fs' = fs := by
  cases fs <;> simp_all [Client.updateDB, osWriteFile]

theorem readDB_file (c : Client) (d : FileData) (db : databaseSchema)
    (h : jsonUnmarshal d = .ok db) : c.readDB (.file d) = .ok db := by
  simp [Client.readDB, osReadFile, h]

theorem updateDB_cases (c : Client) (db : databaseSchema) (fs : FSState) :
    c.updateDB db fs = (.ok (), .file (jsonMarshal db)) ∨
    c.updateDB db fs = (.error (permissionErr c.path), fs) := by
  cases fs <;> simp [Client.updateDB, osWriteFile]

theorem mem_collectPosts (e : String) (l : List (String × Post)) (p : Post) :
    p ∈ collectPosts e l ↔ ((∃ k, (k, p) ∈ l) ∧ p.userEmail = e) := by
  induction l with
  | nil => simp [collectPosts]
  | cons kv rest ih =>
      obtain ⟨k0, p0⟩ := kv
      show p ∈ (if p0.userEmail = e then p0 :: collectPosts e rest
                else collectPosts e rest) ↔ _
      by_cases h0 : p0.userEmail = e
      · rw [if_pos h0]
        constructor
        · intro hmem
          rcases List.mem_cons.mp hmem with h | h
          · subst h
            exact ⟨⟨k0, List.mem_cons_self _ _⟩, h0⟩
          · obtain ⟨⟨k, hk⟩, hpe⟩ := ih.mp h
            exact ⟨⟨k, List.mem_cons_of_mem _ hk⟩, hpe⟩
        · rintro ⟨⟨k, hk⟩, hpe⟩
          rcases List.mem_cons.mp hk with h | h
          · have hp : p = p0 := congrArg Prod.snd h
            exact List.mem_cons.mpr (Or.inl hp)
          · exact List.mem_cons_of_mem _ (ih.mpr ⟨⟨k, h⟩, hpe⟩)
      · rw [if_neg h0, ih]
        constructor
        · rintro ⟨⟨k, hk⟩, hpe⟩
          exact ⟨⟨k, List.mem_cons_of_mem _ hk⟩, hpe⟩
        · rintro ⟨⟨k, hk⟩, hpe⟩
          rcases List.mem_cons.mp hk with h | h
          · have hp : p = p0 := congrArg Prod.snd h
            rw [hp] at hpe
            exact absurd hpe h0
          · exact ⟨⟨k, h⟩, hpe⟩

/-! ## Claim theorems -/

/-- C1: for an email not yet a key, `CreateUser` succeeds, stores a user
with exactly the supplied password, name and age and `createdAt` equal to
the creation instant (the value of `time.Now().UTC()`), returns that user,
and a subsequent `GetUser` on the new state returns the same record. -/
theorem claim1_createUser_then_getUser (c : Client) (now : Int)
    (email password name : String) (age : Int) (d : FileData)
    (db : databaseSchema) (hread : jsonUnmarshal d = .ok db)
    (hfresh : mapGet db.users email = none) :
    c.CreateUser now email password name age (.file d) =
      (.ok ⟨now, email, password, name, age⟩,
       .file (jsonMarshal { db with
         users := mapSet db.users email ⟨now, email, password, name, age⟩ })) ∧
    c.GetUser email
        (.file (jsonMarshal { db with
          users := mapSet db.users email ⟨now, email, password, name, age⟩ })) =
      .ok ⟨now, email, password, name, age⟩ := by
  have h1 : c.readDB (.file d) = .ok db := readDB_file c d db hread
  have h2 := updateDB_not_denied c
    { db with users := mapSet db.users email ⟨now, email, password, name, age⟩ }
    (.file d) (by simp)
  constructor
  · simp [Client.CreateUser, h1, hfresh, h2]
  · simp [Client.GetUser, readDB_jsonMarshal, mapGet_mapSet_self]

/-- C1 witness: the theorem at a concrete fresh email on the fixture store. -/
theorem claim1_witness :
    exC.CreateUser 7 "b@x.com" "pw2" "Bob" 22 (.file (jsonMarshal exDB)) =
      (.ok ⟨7, "b@x.com", "pw2", "Bob", 22⟩,
       .file (jsonMarshal { exDB with
         users := mapSet exDB.users "b@x.com" ⟨7, "b@x.com", "pw2", "Bob", 22⟩ })) ∧
    exC.GetUser "b@x.com"
        (.file (jsonMarshal { exDB with
          users := mapSet exDB.users "b@x.com" ⟨7, "b@x.com", "pw2", "Bob", 22⟩ })) =
      .ok ⟨7, "b@x.com", "pw2", "Bob", 22⟩ :=
  claim1_createUser_then_getUser exC 7 "b@x.com" "pw2" "Bob" 22
    (jsonMarshal exDB) exDB (by rfl) (by rfl)

/-- C4: mutating operations are atomic on error.  A duplicate `CreateUser`
fails with the already-exists error and leaves the file unchanged; an
`UpdateUser` on an absent email fails with the not-found error and leaves
the file unchanged; and after a successful `CreateUser` a failed duplicate
leaves the stored record equal to the first call's values. -/
theorem claim4_atomic_on_error (c : Client) (now now2 : Int)
    (e1 e2 pw n pw2 n2 : String) (a a2 : Int) (d : FileData)
    (db : databaseSchema) (u : User) (hread : jsonUnmarshal d = .ok db)
    (h1 : mapGet db.users e1 = some u) (h2 : mapGet db.users e2 = none) :
    c.CreateUser now e1 pw n a (.file d) =
      (.error (userExistsErr e1), .file d) ∧
    c.UpdateUser e2 pw2 n2 a2 (.file d) =
      (.error (userNotFoundErr e2), .file d) ∧
    c.CreateUser now2 e2 pw2 n2 a2 (c.CreateUser now e2 pw n a (.file d)).2 =
      (.error (userExistsErr e2), (c.CreateUser now e2 pw n a (.file d)).2) ∧
    c.GetUser e2 (c.CreateUser now e2 pw n a (.file d)).2 =
      .ok ⟨now, e2, pw, n, a⟩ := by
  have hr : c.readDB (.file d) = .ok db := readDB_file c d db hread
  have hupd := updateDB_not_denied c
    { db with users := mapSet db.users e2 ⟨now, e2, pw, n, a⟩ } (.file d) (by simp)
  have hcr : c.CreateUser now e2 pw n a (.file d) =
      (.ok ⟨now, e2, pw, n, a⟩,
       .file (jsonMarshal { db with
         users := mapSet db.users e2 ⟨now, e2, pw, n, a⟩ })) := by
    simp [Client.CreateUser, hr, h2, hupd]
  refine ⟨by simp [Client.CreateUser, hr, h1], by simp [Client.UpdateUser, hr, h2], ?_, ?_⟩
  · rw [hcr]
    simp [Client.CreateUser, readDB_jsonMarshal, mapGet_mapSet_self]
  · rw [hcr]
    simp [Client.GetUser, readDB_jsonMarshal, mapGet_mapSet_self]

/-- C4 witness: the theorem on the fixture store, with `e1` the stored
email and `e2` a fresh one. -/
theorem claim4_witness :
    exC.CreateUser 3 "a@x.com" "q" "Q" 1 (.file (jsonMarshal exDB)) =
      (.error (userExistsErr "a@x.com"), .file (jsonMarshal exDB)) ∧
    exC.UpdateUser "b@x.com" "r" "R" 2 (.file (jsonMarshal exDB)) =
      (.error (userNotFoundErr "b@x.com"), .file (jsonMarshal exDB)) ∧
    exC.CreateUser 4 "b@x.com" "r" "R" 2
        (exC.CreateUser 3 "b@x.com" "q" "Q" 1 (.file (jsonMarshal exDB))).2 =
      (.error (userExistsErr "b@x.com"),
       (exC.CreateUser 3 "b@x.com" "q" "Q" 1 (.file (jsonMarshal exDB))).2) ∧
    exC.GetUser "b@x.com"
        (exC.CreateUser 3 "b@x.com" "q" "Q" 1 (.file (jsonMarshal exDB))).2 =
      .ok ⟨3, "b@x.com", "q", "Q", 1⟩ :=
  claim4_atomic_on_error exC 3 4 "a@x.com" "b@x.com" "q" "Q" "r" "R" 1 2
    (jsonMarshal exDB) exDB exUser (by rfl) (by rfl) (by rfl)

/-- C5: `UpdateUser` on a stored email replaces exactly password, name and
age, preserves `createdAt`, keeps the record keyed by the same email, does
not touch other keys, and returns the updated user. -/
theorem claim5_updateUser_existing (c : Client) (e pw n : String) (a : Int)
    (d : FileData) (db : databaseSchema) (u : User)
    (hread : jsonUnmarshal d = .ok db) (hu : mapGet db.users e = some u)
    (hcoh : u.email = e) :
    c.UpdateUser e pw n a (.file d) =
      (.ok ⟨u.createdAt, e, pw, n, a⟩,
       .file (jsonMarshal { db with
         users := mapSet db.users e ⟨u.createdAt, e, pw, n, a⟩ })) ∧
    mapGet (mapSet db.users e ⟨u.createdAt, e, pw, n, a⟩) e =
      some ⟨u.createdAt, e, pw, n, a⟩ ∧
    (∀ k, k ≠ e →
      mapGet (mapSet db.users e ⟨u.createdAt, e, pw, n, a⟩) k = mapGet db.users k) := by
  have hr : c.readDB (.file d) = .ok db := readDB_file c d db hread
  have hupd := updateDB_not_denied c
    { db with users := mapSet db.users e ⟨u.createdAt, e, pw, n, a⟩ } (.file d) (by simp)
  refine ⟨?_, mapGet_mapSet_self _ _ _, fun k hk => mapGet_mapSet_ne _ _ _ _ hk⟩
  simp [Client.UpdateUser, hr, hu, hcoh, hupd]

/-- C5 witness: the theorem on the fixture store's stored user. -/
theorem claim5_witness :
    exC.UpdateUser "a@x.com" "new" "Anna" 31 (.file (jsonMarshal exDB)) =
      (.ok ⟨exUser.createdAt, "a@x.com", "new", "Anna", 31⟩,
       .file (jsonMarshal { exDB with
         users := mapSet exDB.users "a@x.com"
           ⟨exUser.createdAt, "a@x.com", "new", "Anna", 31⟩ })) ∧
    mapGet (mapSet exDB.users "a@x.com"
        ⟨exUser.createdAt, "a@x.com", "new", "Anna", 31⟩) "a@x.com" =
      some ⟨exUser.createdAt, "a@x.com", "new", "Anna", 31⟩ ∧
    (∀ k, k ≠ "a@x.com" →
      mapGet (mapSet exDB.users "a@x.com"
        ⟨exUser.createdAt, "a@x.com", "new", "Anna", 31⟩) k = mapGet exDB.users k) :=
  claim5_updateUser_existing exC "a@x.com" "new" "Anna" 31
    (jsonMarshal exDB) exDB exUser (by rfl) (by rfl) (by rfl)

/-- C6: `DeleteUser` on a stored email removes exactly that users entry,
leaves the posts map entirely unchanged (the listing of any email's posts,
including the deleted user's, is the same before and after — no cascade),
and a subsequent `GetUser` fails with the not-found error. -/
theorem claim6_deleteUser_no_cascade (c : Client) (e q : String)
    (d : FileData) (db : databaseSchema) (u : User)
    (hread : jsonUnmarshal d = .ok db) (hu : mapGet db.users e = some u) :
    c.DeleteUser e (.file d) =
      (.ok (), .file (jsonMarshal { db with users := mapDel db.users e })) ∧
    c.readDB (.file (jsonMarshal { db with users := mapDel db.users e })) =
      .ok { db with users := mapDel db.users e } ∧
    mapGet (mapDel db.users e) e = none ∧
    (∀ k, k ≠ e → mapGet (mapDel db.users e) k = mapGet db.users k) ∧
    c.GetPosts q (.file (jsonMarshal { db with users := mapDel db.users e })) =
      c.GetPosts q (.file d) ∧
    c.GetUser e (.file (jsonMarshal { db with users := mapDel db.users e })) =
      .error (userNotFoundErr e) := by
  have hr : c.readDB (.file d) = .ok db := readDB_file c d db hread
  have hupd := updateDB_not_denied c
    { db with users := mapDel db.users e } (.file d) (by simp)
  refine ⟨?_, readDB_jsonMarshal c _, mapGet_mapDel_self _ _,
    fun k hk => mapGet_mapDel_ne _ _ _ hk, ?_, ?_⟩
  · simp [Client.DeleteUser, hr, hu, hupd]
  · simp [Client.GetPosts, hr, readDB_jsonMarshal]
  · simp [Client.GetUser, readDB_jsonMarshal, mapGet_mapDel_self]

/-- C6 witness: deleting the fixture user; their post is still listed and
`GetUser` then fails. -/
theorem claim6_witness :
    exC.DeleteUser "a@x.com" (.file (jsonMarshal exDB)) =
      (.ok (), .file (jsonMarshal { exDB with users := mapDel exDB.users "a@x.com" })) ∧
    exC.readDB (.file (jsonMarshal { exDB with users := mapDel exDB.users "a@x.com" })) =
      .ok { exDB with users := mapDel exDB.users "a@x.com" } ∧
    mapGet (mapDel exDB.users "a@x.com") "a@x.com" = none ∧
    (∀ k, k ≠ "a@x.com" →
      mapGet (mapDel exDB.users "a@x.com") k = mapGet exDB.users k) ∧
    exC.GetPosts "a@x.com"
        (.file (jsonMarshal { exDB with users := mapDel exDB.users "a@x.com" })) =
      exC.GetPosts "a@x.com" (.file (jsonMarshal exDB)) ∧
    exC.GetUser "a@x.com"
        (.file (jsonMarshal { exDB with users := mapDel exDB.users "a@x.com" })) =
      .error (userNotFoundErr "a@x.com") :=
  claim6_deleteUser_no_cascade exC "a@x.com" "a@x.com"
    (jsonMarshal exDB) exDB exUser (by rfl) (by rfl)

/-- C7: `GetPosts` (the spec's `ListPostsByUser`) succeeds on every
readable store and returns exactly the posts whose `userEmail` equals the
argument (as a set: a post is in the result iff it is a value of the posts
map with that `userEmail`), and returns the empty collection — not an
error — when nothing matches. -/
theorem claim7_getPosts_exact (c : Client) (e : String) (d : FileData)
    (db : databaseSchema) (hread : jsonUnmarshal d = .ok db) :
    ∃ l, c.GetPosts e (.file d) = .ok l ∧
      (∀ p : Post, p ∈ l ↔ ((∃ k, (k, p) ∈ db.posts) ∧ p.userEmail = e)) ∧
      ((∀ k p, (k, p) ∈ db.posts → p.userEmail ≠ e) → l = []) := by
  have hr : c.readDB (.file d) = .ok db := readDB_file c d db hread
  refine ⟨collectPosts e db.posts, by simp [Client.GetPosts, hr],
    fun p => mem_collectPosts e db.posts p, fun hnone => ?_⟩
  rw [List.eq_nil_iff_forall_not_mem]
  intro p hp
  obtain ⟨⟨k, hk⟩, hpe⟩ := (mem_collectPosts e db.posts p).mp hp
  exact hnone k p hk hpe

/-- C7 witness: listing the fixture user's posts and a user with none. -/
theorem claim7_witness :
    ∃ l, exC.GetPosts "a@x.com" (.file (jsonMarshal exDB)) = .ok l ∧
      (∀ p : Post, p ∈ l ↔ ((∃ k, (k, p) ∈ exDB.posts) ∧ p.userEmail = "a@x.com")) ∧
      ((∀ k p, (k, p) ∈ exDB.posts → p.userEmail ≠ "a@x.com") → l = []) :=
  claim7_getPosts_exact exC "a@x.com" (jsonMarshal exDB) exDB (by rfl)

/-- C9: persistence round-trips losslessly: writing any document through
`updateDB` and re-reading it through a fresh client against the same path
yields the document back, every user and post field-for-field equal. -/
theorem claim9_roundtrip (path : String) (db : databaseSchema) (fs : FSState)
    (h : fs ≠ .denied) :
    (NewClient path).updateDB db fs = (.ok (), .file (jsonMarshal db)) ∧
    (NewClient path).readDB (.file (jsonMarshal db)) = .ok db :=
  ⟨updateDB_not_denied (NewClient path) db fs h, readDB_jsonMarshal (NewClient path) db⟩

/-- C9 witness: the fixture document round-trips through the file. -/
theorem claim9_witness :
    (NewClient "database.json").updateDB exDB (.file (jsonMarshal emptyDB)) =
      (.ok (), .file (jsonMarshal exDB)) ∧
    (NewClient "database.json").readDB (.file (jsonMarshal exDB)) = .ok exDB :=
  claim9_roundtrip "database.json" exDB (.file (jsonMarshal emptyDB)) (by simp)

theorem permissionErr_ne_noSuchFileErr (path : String) :
    permissionErr path ≠ noSuchFileErr path := by
  intro h
  have hlen := congrArg String.length h
  simp [permissionErr, noSuchFileErr, String.length_append] at hlen
  exact (by decide :
    ¬ (": permission denied".length = ": no such file or directory".length)) hlen

theorem ensureDB_absent (c : Client) :
    c.EnsureDB .absent = (.ok (), .file (jsonMarshal emptyDB)) := by
  simp [Client.EnsureDB, osReadFile, Client.createDB, osWriteFile,
        jsonMarshal, jsonUnmarshal, decodeSchema_encodeSchema]

theorem ensureDB_file (c : Client) (d : FileData) (db : databaseSchema)
    (h : jsonUnmarshal d = .ok db) : c.EnsureDB (.file d) = (.ok (), .file d) := by
  simp [Client.EnsureDB, osReadFile, h]

theorem ensureDB_denied (c : Client) :
    c.EnsureDB .denied = (.error (permissionErr c.path), .denied) := by
  simp [Client.EnsureDB, osReadFile, permissionErr_ne_noSuchFileErr]

theorem ensureDB_file_bad (c : Client) (d : FileData) (e : Err)
    (h : jsonUnmarshal d = .error e) : c.EnsureDB (.file d) = (.error e, .file d) := by
  simp [Client.EnsureDB, osReadFile, h]

/-- C8: `EnsureDB` is idempotent: on a missing file it creates and
persists the document with two empty maps and succeeds; on an existing
parseable document it succeeds and leaves the file unchanged; and on every
file state running it twice has the same result and effect as running it
once. -/
theorem claim8_ensureDB_idempotent (c : Client) (fs : FSState) (d : FileData)
    (db : databaseSchema) (h : jsonUnmarshal d = .ok db) :
    c.EnsureDB .absent = (.ok (), .file (jsonMarshal emptyDB)) ∧
    c.EnsureDB (.file d) = (.ok (), .file d) ∧
    c.EnsureDB (c.EnsureDB fs).2 = c.EnsureDB fs := by
  refine ⟨ensureDB_absent c, ensureDB_file c d db h, ?_⟩
  cases fs with
  | absent =>
      rw [ensureDB_absent c]
      exact ensureDB_file c _ emptyDB (by simp [jsonMarshal, jsonUnmarshal,
        decodeSchema_encodeSchema])
  | denied =>
      rw [ensureDB_denied c]
      exact ensureDB_denied c
  | file d0 =>
      cases hj : jsonUnmarshal d0 with
      | ok db0 =>
          rw [ensureDB_file c d0 db0 hj]
          exact ensureDB_file c d0 db0 hj
      | error e0 =>
          rw [ensureDB_file_bad c d0 e0 hj]
          exact ensureDB_file_bad c d0 e0 hj

/-- C8 witness: the theorem at the fixture path, existing fixture document
and an absent initial state. -/
theorem claim8_witness :
    exC.EnsureDB .absent = (.ok (), .file (jsonMarshal emptyDB)) ∧
    exC.EnsureDB (.file (jsonMarshal exDB)) = (.ok (), .file (jsonMarshal exDB)) ∧
    exC.EnsureDB (exC.EnsureDB .absent).2 = exC.EnsureDB .absent :=
  claim8_ensureDB_idempotent exC .absent (jsonMarshal exDB) exDB (by rfl)

theorem mapSet_length_fresh {α : Type} (m : List (String × α)) (k : String)
    (v : α) (h : mapGet m k = none) :
    (mapSet m k v).length = m.length + 1 := by
  induction m with
  | nil => simp [mapSet]
  | cons kv rest ih =>
      obtain ⟨k0, v0⟩ := kv
      by_cases h0 : k0 = k
      · simp [mapGet, h0] at h
      · simp [mapGet, h0] at h
        simp [mapSet, h0, ih h]

/-- C2 (amended): `CreatePost` fails with the user-not-found error and
leaves the file unchanged when no user is keyed by the email; otherwise it
succeeds and inserts a post whose `userEmail` and `text` are the supplied
values under the id produced by the generator (`uuid.NewString`).  When
that generated id is not already a key of the posts map — which the code
does not check, relying on the generator's negligible collision
probability — the map gains exactly that one entry, and two successive
calls whose generated ids differ return posts with distinct ids. -/
theorem claim2_createPost_amended (c : Client) (now now2 : Int)
    (id1 id2 : String) (eA eB text : String) (d : FileData)
    (db : databaseSchema) (u : User) (hread : jsonUnmarshal d = .ok db)
    (hA : mapGet db.users eA = none) (hB : mapGet db.users eB = some u)
    (hfresh : mapGet db.posts id1 = none) (hne : id2 ≠ id1) :
    c.CreatePost now id1 eA text (.file d) =
      (.error (userNotFoundErr eA), .file d) ∧
    c.CreatePost now id1 eB text (.file d) =
      (.ok ⟨id1, now, eB, text⟩,
       .file (jsonMarshal { db with
         posts := mapSet db.posts id1 ⟨id1, now, eB, text⟩ })) ∧
    mapGet (mapSet db.posts id1 ⟨id1, now, eB, text⟩) id1 =
      some ⟨id1, now, eB, text⟩ ∧
    (∀ k, k ≠ id1 →
      mapGet (mapSet db.posts id1 ⟨id1, now, eB, text⟩) k = mapGet db.posts k) ∧
    (mapSet db.posts id1 ⟨id1, now, eB, text⟩).length = db.posts.length + 1 ∧
    (c.CreatePost now2 id2 eB text
        (.file (jsonMarshal { db with
          posts := mapSet db.posts id1 ⟨id1, now, eB, text⟩ }))).1 =
      .ok ⟨id2, now2, eB, text⟩ ∧
    (⟨id2, now2, eB, text⟩ : Post).id ≠ (⟨id1, now, eB, text⟩ : Post).id := by
  have hr : c.readDB (.file d) = .ok db := readDB_file c d db hread
  have hupd := updateDB_not_denied c
    { db with posts := mapSet db.posts id1 ⟨id1, now, eB, text⟩ } (.file d) (by simp)
  refine ⟨?_, ?_, mapGet_mapSet_self _ _ _,
    fun k hk => mapGet_mapSet_ne _ _ _ _ hk,
    mapSet_length_fresh _ _ _ hfresh, ?_, hne⟩
  · simp [Client.CreatePost, hr, Client.GetUser, hA]
  · simp [Client.CreatePost, hr, Client.GetUser, hB, hupd]
  · have hr2 := readDB_jsonMarshal c
      { db with posts := mapSet db.posts id1 ⟨id1, now, eB, text⟩ }
    have hupd2 := updateDB_not_denied c
      { db with posts :=
          mapSet (mapSet db.posts id1 ⟨id1, now, eB, text⟩) id2 ⟨id2, now2, eB, text⟩ }
      (.file (jsonMarshal { db with
        posts := mapSet db.posts id1 ⟨id1, now, eB, text⟩ })) (by simp)
    simp [Client.CreatePost, hr2, Client.GetUser, hB, hupd2]

/-- C2 witness: the amended theorem on the fixture store, with a fresh
generated id and two distinct generated ids for the two calls. -/
theorem claim2_witness :
    exC.CreatePost 8 "Q1" "z@x.com" "hi" (.file (jsonMarshal exDB)) =
      (.error (userNotFoundErr "z@x.com"), .file (jsonMarshal exDB)) ∧
    exC.CreatePost 8 "Q1" "a@x.com" "hi" (.file (jsonMarshal exDB)) =
      (.ok ⟨"Q1", 8, "a@x.com", "hi"⟩,
       .file (jsonMarshal { exDB with
         posts := mapSet exDB.posts "Q1" ⟨"Q1", 8, "a@x.com", "hi"⟩ })) ∧
    mapGet (mapSet exDB.posts "Q1" ⟨"Q1", 8, "a@x.com", "hi"⟩) "Q1" =
      some ⟨"Q1", 8, "a@x.com", "hi"⟩ ∧
    (∀ k, k ≠ "Q1" →
      mapGet (mapSet exDB.posts "Q1" ⟨"Q1", 8, "a@x.com", "hi"⟩) k =
        mapGet exDB.posts k) ∧
    (mapSet exDB.posts "Q1" ⟨"Q1", 8, "a@x.com", "hi"⟩).length =
      exDB.posts.length + 1 ∧
    (exC.CreatePost 9 "Q2" "a@x.com" "hi"
        (.file (jsonMarshal { exDB with
          posts := mapSet exDB.posts "Q1" ⟨"Q1", 8, "a@x.com", "hi"⟩ }))).1 =
      .ok ⟨"Q2", 9, "a@x.com", "hi"⟩ ∧
    (⟨"Q2", 9, "a@x.com", "hi"⟩ : Post).id ≠ (⟨"Q1", 8, "a@x.com", "hi"⟩ : Post).id :=
  claim2_createPost_amended exC 8 9 "Q1" "Q2" "z@x.com" "a@x.com" "hi"
    (jsonMarshal exDB) exDB exUser (by rfl) (by rfl) (by rfl) (by rfl) (by decide)

/-- C2 counterexample: the id `"P"` is still present in the posts map, yet
`CreatePost` with the generator returning `"P"` succeeds and stores the new
post under `"P"`, overwriting the old one — so the code does not guarantee
that an id still present in the map is never reused. -/
theorem claim2_counterexample :
    mapGet exDB.posts "P" = some exPost ∧
    exC.CreatePost 9 "P" "a@x.com" "again" (.file (jsonMarshal exDB)) =
      (.ok ⟨"P", 9, "a@x.com", "again"⟩,
       .file (jsonMarshal ⟨exDB.users, [("P", ⟨"P", 9, "a@x.com", "again"⟩)]⟩)) ∧
    exC.readDB (.file (jsonMarshal
        ⟨exDB.users, [("P", ⟨"P", 9, "a@x.com", "again"⟩)]⟩)) =
      .ok ⟨exDB.users, [("P", ⟨"P", 9, "a@x.com", "again"⟩)]⟩ ∧
    (⟨"P", 9, "a@x.com", "again"⟩ : Post) ≠ exPost := by
  refine ⟨by rfl, by rfl, by rfl, by decide⟩

theorem errOf_some {α : Type} (x : Except Err α) (e : Err)
    (h : errOf x = some e) : x = .error e := by
  cases x <;> simp [errOf] at h
  rw [h]

theorem errMsg_readDB (c : Client) (fs : FSState) (e : Err)
    (h : c.readDB fs = .error e) : ErrMsgFamilies c.path e := by
  rcases readDB_error c fs e h with h1 | h1 | h1
  · right; right; right; right; left; exact h1
  · right; right; right; right; right; exact h1
  · right; right; right; left; exact h1

theorem errMsg_userExists (path em : String) :
    ErrMsgFamilies path (userExistsErr em) := Or.inl ⟨em, rfl⟩

theorem errMsg_userNotFound (path em : String) :
    ErrMsgFamilies path (userNotFoundErr em) := Or.inr (Or.inl ⟨em, rfl⟩)

theorem errMsg_postNotFound (path i : String) :
    ErrMsgFamilies path (postNotFoundErr i) := Or.inr (Or.inr (Or.inl ⟨i, rfl⟩))

theorem errMsg_permission (path : String) :
    ErrMsgFamilies path (permissionErr path) :=
  Or.inr (Or.inr (Or.inr (Or.inr (Or.inr rfl))))

theorem errMsg_unmarshal (path : String) : ErrMsgFamilies path unmarshalErr :=
  Or.inr (Or.inr (Or.inr (Or.inl rfl)))

theorem createUser_error_msg (c : Client) (now : Int) (em pw n : String)
    (a : Int) (fs : FSState) (e : Err)
    (h : (c.CreateUser now em pw n a fs).1 = .error e) :
    ErrMsgFamilies c.path e := by
  cases hr : c.readDB fs with
  | error e0 =>
      have hc : (c.CreateUser now em pw n a fs).1 = .error e0 := by
        simp [Client.CreateUser, hr]
      have he := Except.error.inj (hc.symm.trans h)
      rw [← he]
      exact errMsg_readDB c fs e0 hr
  | ok db =>
      cases hm : mapGet db.users em with
      | some u =>
          have hc : (c.CreateUser now em pw n a fs).1 =
              .error (userExistsErr em) := by
            simp [Client.CreateUser, hr, hm]
          have he := Except.error.inj (hc.symm.trans h)
          rw [← he]
          exact errMsg_userExists c.path em
      | none =>
          rcases updateDB_cases c
              { db with users := mapSet db.users em ⟨now, em, pw, n, a⟩ } fs
            with hu | hu
          · have hc : (c.CreateUser now em pw n a fs).1 =
                .ok (⟨now, em, pw, n, a⟩ : User) := by
              simp [Client.CreateUser, hr, hm, hu]
            exact absurd (hc.symm.trans h) (by simp)
          · have hc : (c.CreateUser now em pw n a fs).1 =
                .error (permissionErr c.path) := by
              simp [Client.CreateUser, hr, hm, hu]
            have he := Except.error.inj (hc.symm.trans h)
            rw [← he]
            exact errMsg_permission c.path

theorem updateUser_error_msg (c : Client) (em pw n : String) (a : Int)
    (fs : FSState) (e : Err) (h : (c.UpdateUser em pw n a fs).1 = .error e) :
    ErrMsgFamilies c.path e := by
  cases hr : c.readDB fs with
  | error e0 =>
      have hc : (c.UpdateUser em pw n a fs).1 = .error e0 := by
        simp [Client.UpdateUser, hr]
      have he := Except.error.inj (hc.symm.trans h)
      rw [← he]
      exact errMsg_readDB c fs e0 hr
  | ok db =>
      cases hm : mapGet db.users em with
      | none =>
          have hc : (c.UpdateUser em pw n a fs).1 =
              .error (userNotFoundErr em) := by
            simp [Client.UpdateUser, hr, hm]
          have he := Except.error.inj (hc.symm.trans h)
          rw [← he]
          exact errMsg_userNotFound c.path em
      | some u0 =>
          rcases updateDB_cases c
              { db with users :=
                  if u0.email = em then
                    mapSet db.users em ⟨u0.createdAt, em, pw, n, a⟩
                  else
                    mapDel (mapSet db.users em ⟨u0.createdAt, em, pw, n, a⟩) u0.email } fs
            with hu | hu
          · have hc : (c.UpdateUser em pw n a fs).1 =
                .ok (⟨u0.createdAt, em, pw, n, a⟩ : User) := by
              simp [Client.UpdateUser, hr, hm, hu]
            exact absurd (hc.symm.trans h) (by simp)
          · have hc : (c.UpdateUser em pw n a fs).1 =
                .error (permissionErr c.path) := by
              simp [Client.UpdateUser, hr, hm, hu]
            have he := Except.error.inj (hc.symm.trans h)
            rw [← he]
            exact errMsg_permission c.path

theorem getUser_error_msg (c : Client) (em : String) (fs : FSState) (e : Err)
    (h : c.GetUser em fs = .error e) : ErrMsgFamilies c.path e := by
  cases hr : c.readDB fs with
  | error e0 =>
      have hc : c.GetUser em fs = .error e0 := by
        simp [Client.GetUser, hr]
      have he := Except.error.inj (hc.symm.trans h)
      rw [← he]
      exact errMsg_readDB c fs e0 hr
  | ok db =>
      cases hm : mapGet db.users em with
      | none =>
          have hc : c.GetUser em fs = .error (userNotFoundErr em) := by
            simp [Client.GetUser, hr, hm]
          have he := Except.error.inj (hc.symm.trans h)
          rw [← he]
          exact errMsg_userNotFound c.path em
      | some u =>
          have hc : c.GetUser em fs = .ok u := by
            simp [Client.GetUser, hr, hm]
          exact absurd (hc.symm.trans h) (by simp)

theorem deleteUser_error_msg (c : Client) (em : String) (fs : FSState) (e : Err)
    (h : (c.DeleteUser em fs).1 = .error e) : ErrMsgFamilies c.path e := by
  cases hr : c.readDB fs with
  | error e0 =>
      have hc : (c.DeleteUser em fs).1 = .error e0 := by
        simp [Client.DeleteUser, hr]
      have he := Except.error.inj (hc.symm.trans h)
      rw [← he]
      exact errMsg_readDB c fs e0 hr
  | ok db =>
      cases hm : mapGet db.users em with
      | none =>
          have hc : (c.DeleteUser em fs).1 = .error (userNotFoundErr em) := by
            simp [Client.DeleteUser, hr, hm]
          have he := Except.error.inj (hc.symm.trans h)
          rw [← he]
          exact errMsg_userNotFound c.path em
      | some u =>
          rcases updateDB_cases c { db with users := mapDel db.users em } fs
            with hu | hu
          · have hc : (c.DeleteUser em fs).1 = .ok () := by
              simp [Client.DeleteUser, hr, hm, hu]
            exact absurd (hc.symm.trans h) (by simp)
          · have hc : (c.DeleteUser em fs).1 = .error (permissionErr c.path) := by
              simp [Client.DeleteUser, hr, hm, hu]
            have he := Except.error.inj (hc.symm.trans h)
            rw [← he]
            exact errMsg_permission c.path

theorem createPost_error_msg (c : Client) (now : Int) (gid em tx : String)
    (fs : FSState) (e : Err) (h : (c.CreatePost now gid em tx fs).1 = .error e) :
    ErrMsgFamilies c.path e := by
  cases hr : c.readDB fs with
  | error e0 =>
      have hc : (c.CreatePost now gid em tx fs).1 = .error e0 := by
        simp [Client.CreatePost, hr]
      have he := Except.error.inj (hc.symm.trans h)
      rw [← he]
      exact errMsg_readDB c fs e0 hr
  | ok db =>
      cases hg : c.GetUser em fs with
      | error e0 =>
          have hc : (c.CreatePost now gid em tx fs).1 = .error e0 := by
            simp [Client.CreatePost, hr, hg]
          have he := Except.error.inj (hc.symm.trans h)
          rw [← he]
          exact getUser_error_msg c em fs e0 hg
      | ok u =>
          rcases updateDB_cases c
              { db with posts := mapSet db.posts gid ⟨gid, now, em, tx⟩ } fs
            with hu | hu
          · have hc : (c.CreatePost now gid em tx fs).1 =
                .ok (⟨gid, now, em, tx⟩ : Post) := by
              simp [Client.CreatePost, hr, hg, hu]
            exact absurd (hc.symm.trans h) (by simp)
          · have hc : (c.CreatePost now gid em tx fs).1 =
                .error (permissionErr c.path) := by
              simp [Client.CreatePost, hr, hg, hu]
            have he := Except.error.inj (hc.symm.trans h)
            rw [← he]
            exact errMsg_permission c.path

theorem getPost_error_msg (c : Client) (i : String) (fs : FSState) (e : Err)
    (h : c.GetPost i fs = .error e) : ErrMsgFamilies c.path e := by
  cases hr : c.readDB fs with
  | error e0 =>
      have hc : c.GetPost i fs = .error e0 := by
        simp [Client.GetPost, hr]
      have he := Except.error.inj (hc.symm.trans h)
      rw [← he]
      exact errMsg_readDB c fs e0 hr
  | ok db =>
      cases hm : mapGet db.posts i with
      | none =>
          have hc : c.GetPost i fs = .error (postNotFoundErr i) := by
            simp [Client.GetPost, hr, hm]
          have he := Except.error.inj (hc.symm.trans h)
          rw [← he]
          exact errMsg_postNotFound c.path i
      | some p =>
          have hc : c.GetPost i fs = .ok p := by
            simp [Client.GetPost, hr, hm]
          exact absurd (hc.symm.trans h) (by simp)

theorem getPosts_error_msg (c : Client) (em : String) (fs : FSState) (e : Err)
    (h : c.GetPosts em fs = .error e) : ErrMsgFamilies c.path e := by
  cases hr : c.readDB fs with
  | error e0 =>
      have hc : c.GetPosts em fs = .error e0 := by
        simp [Client.GetPosts, hr]
      have he := Except.error.inj (hc.symm.trans h)
      rw [← he]
      exact errMsg_readDB c fs e0 hr
  | ok db =>
      have hc : c.GetPosts em fs = .ok (collectPosts em db.posts) := by
        simp [Client.GetPosts, hr]
      exact absurd (hc.symm.trans h) (by simp)

theorem deletePost_error_msg (c : Client) (i : String) (fs : FSState) (e : Err)
    (h : (c.DeletePost i fs).1 = .error e) : ErrMsgFamilies c.path e := by
  cases hr : c.readDB fs with
  | error e0 =>
      have hc : (c.DeletePost i fs).1 = .error e0 := by
        simp [Client.DeletePost, hr]
      have he := Except.error.inj (hc.symm.trans h)
      rw [← he]
      exact errMsg_readDB c fs e0 hr
  | ok db =>
      cases hm : mapGet db.posts i with
      | none =>
          have hc : (c.DeletePost i fs).1 = .error (postNotFoundErr i) := by
            simp [Client.DeletePost, hr, hm]
          have he := Except.error.inj (hc.symm.trans h)
          rw [← he]
          exact errMsg_postNotFound c.path i
      | some p =>
          rcases updateDB_cases c { db with posts := mapDel db.posts i } fs
            with hu | hu
          · have hc : (c.DeletePost i fs).1 = .ok () := by
              simp [Client.DeletePost, hr, hm, hu]
            exact absurd (hc.symm.trans h) (by simp)
          · have hc : (c.DeletePost i fs).1 = .error (permissionErr c.path) := by
              simp [Client.DeletePost, hr, hm, hu]
            have he := Except.error.inj (hc.symm.trans h)
            rw [← he]
            exact errMsg_permission c.path

theorem ensureDB_error_msg (c : Client) (fs : FSState) (e : Err)
    (h : (c.EnsureDB fs).1 = .error e) : ErrMsgFamilies c.path e := by
  cases fs with
  | absent => rw [ensureDB_absent c] at h; simp at h
  | denied =>
      rw [ensureDB_denied c] at h
      simp at h
      rw [← h]
      exact errMsg_permission c.path
  | file d =>
      cases hj : jsonUnmarshal d with
      | ok db => rw [ensureDB_file c d db hj] at h; simp at h
      | error e0 =>
          rw [ensureDB_file_bad c d e0 hj] at h
          simp at h
          rw [← h, jsonUnmarshal_error d e0 hj]
          exact errMsg_unmarshal c.path

/-- C3 (amended): every error returned by `EnsureDB`, the four user
operations or the four post operations is one of five families of
formatted message strings — "user … already exists", "user … doesn\x27t
exist", "post … doesn\x27t exist", a JSON unmarshal error, or a
file-system error — embedding the offending key in the text.  Errors are
raw Go `error` strings built with `fmt.Errorf`, not values of a
four-element typed taxonomy; the category is recoverable only from the
message text. -/
theorem claim3_errors_are_message_strings (c : Client) (op : Op)
    (fs : FSState) (e : Err) (h : (applyOp c op fs).1 = some e) :
    ErrMsgFamilies c.path e := by
  cases op with
  | ensureDB =>
      simp only [applyOp] at h
      exact ensureDB_error_msg c fs e (errOf_some _ e h)
  | createUser now em pw n a =>
      simp only [applyOp] at h
      exact createUser_error_msg c now em pw n a fs e (errOf_some _ e h)
  | updateUser em pw n a =>
      simp only [applyOp] at h
      exact updateUser_error_msg c em pw n a fs e (errOf_some _ e h)
  | getUser em =>
      simp only [applyOp] at h
      exact getUser_error_msg c em fs e (errOf_some _ e h)
  | deleteUser em =>
      simp only [applyOp] at h
      exact deleteUser_error_msg c em fs e (errOf_some _ e h)
  | createPost now gid em tx =>
      simp only [applyOp] at h
      exact createPost_error_msg c now gid em tx fs e (errOf_some _ e h)
  | getPost i =>
      simp only [applyOp] at h
      exact getPost_error_msg c i fs e (errOf_some _ e h)
  | getPosts em =>
      simp only [applyOp] at h
      exact getPosts_error_msg c em fs e (errOf_some _ e h)
  | deletePost i =>
      simp only [applyOp] at h
      exact deletePost_error_msg c i fs e (errOf_some _ e h)

/-- C3 witness: the amended theorem at a concrete failing lookup. -/
theorem claim3_witness : ErrMsgFamilies exC.path (userNotFoundErr "z@x.com") :=
  claim3_errors_are_message_strings exC (.getUser "z@x.com")
    (.file (jsonMarshal exDB)) (userNotFoundErr "z@x.com") (by rfl)

/-- C3 counterexample: five pairwise-distinct error values, each actually
returned by a store operation at a concrete input, cannot all be values of
the four-element taxonomy `StoreError` under any representation — the
errors embed the offending key and so do not form a four-value type. -/
theorem claim3_counterexample :
    (exC.CreateUser 0 "a@x.com" "x" "X" 0 (.file (jsonMarshal exDB))).1 =
      .error (userExistsErr "a@x.com") ∧
    exC.GetUser "b@x.com" (.file (jsonMarshal exDB)) =
      .error (userNotFoundErr "b@x.com") ∧
    exC.GetUser "c@x.com" (.file (jsonMarshal exDB)) =
      .error (userNotFoundErr "c@x.com") ∧
    exC.GetPost "Q" (.file (jsonMarshal exDB)) = .error (postNotFoundErr "Q") ∧
    exC.GetPost "R" (.file (jsonMarshal exDB)) = .error (postNotFoundErr "R") ∧
    ¬ ∃ f : StoreError → Err,
        ∀ e ∈ [userExistsErr "a@x.com", userNotFoundErr "b@x.com",
               userNotFoundErr "c@x.com", postNotFoundErr "Q",
               postNotFoundErr "R"], ∃ t, f t = e := by
  refine ⟨by rfl, by rfl, by rfl, by rfl, by rfl, ?_⟩
  rintro ⟨f, hf⟩
  obtain ⟨t0, h0⟩ := hf (userExistsErr "a@x.com") (by simp)
  obtain ⟨t1, h1⟩ := hf (userNotFoundErr "b@x.com") (by simp)
  obtain ⟨t2, h2⟩ := hf (userNotFoundErr "c@x.com") (by simp)
  obtain ⟨t3, h3⟩ := hf (postNotFoundErr "Q") (by simp)
  obtain ⟨t4, h4⟩ := hf (postNotFoundErr "R") (by simp)
  have hpigeon : ∀ a b c d e : StoreError,
      a = b ∨ a = c ∨ a = d ∨ a = e ∨ b = c ∨ b = d ∨ b = e ∨
      c = d ∨ c = e ∨ d = e := by decide
  rcases hpigeon t0 t1 t2 t3 t4 with
    hq | hq | hq | hq | hq | hq | hq | hq | hq | hq
  · rw [hq, h1] at h0; exact absurd h0 (by decide)
  · rw [hq, h2] at h0; exact absurd h0 (by decide)
  · rw [hq, h3] at h0; exact absurd h0 (by decide)
  · rw [hq, h4] at h0; exact absurd h0 (by decide)
  · rw [hq, h2] at h1; exact absurd h1 (by decide)
  · rw [hq, h3] at h1; exact absurd h1 (by decide)
  · rw [hq, h4] at h1; exact absurd h1 (by decide)
  · rw [hq, h3] at h2; exact absurd h2 (by decide)
  · rw [hq, h4] at h2; exact absurd h2 (by decide)
  · rw [hq, h4] at h3; exact absurd h3 (by decide)

theorem coherent_emptyDB : Coherent emptyDB := by
  constructor <;> intro k v h <;> simp [emptyDB] at h

theorem coherent_users_mapSet (db : databaseSchema) (h : Coherent db)
    (k : String) (u : User) (hu : u.email = k) :
    Coherent { db with users := mapSet db.users k u } := by
  obtain ⟨h1, h2⟩ := h
  refine ⟨?_, h2⟩
  intro k' u' hk
  rcases mem_mapSet _ _ _ _ hk with hmem | heq
  · exact h1 k' u' hmem
  · have e1 : k' = k := congrArg Prod.fst heq
    have e2 : u' = u := congrArg Prod.snd heq
    subst e1
    subst e2
    exact hu

theorem coherent_users_mapDel (db : databaseSchema) (h : Coherent db)
    (k : String) : Coherent { db with users := mapDel db.users k } := by
  obtain ⟨h1, h2⟩ := h
  exact ⟨fun k' u' hk => h1 k' u' (mem_mapDel _ _ _ hk), h2⟩

theorem coherent_posts_mapSet (db : databaseSchema) (h : Coherent db)
    (k : String) (p : Post) (hp : p.id = k) :
    Coherent { db with posts := mapSet db.posts k p } := by
  obtain ⟨h1, h2⟩ := h
  refine ⟨h1, ?_⟩
  intro k' p' hk
  rcases mem_mapSet _ _ _ _ hk with hmem | heq
  · exact h2 k' p' hmem
  · have e1 : k' = k := congrArg Prod.fst heq
    have e2 : p' = p := congrArg Prod.snd heq
    subst e1
    subst e2
    exact hp

theorem coherent_posts_mapDel (db : databaseSchema) (h : Coherent db)
    (k : String) : Coherent { db with posts := mapDel db.posts k } := by
  obtain ⟨h1, h2⟩ := h
  exact ⟨h1, fun k' p' hk => h2 k' p' (mem_mapDel _ _ _ hk)⟩

theorem applyOp_preserves_coherent (c : Client) (op : Op) (fs : FSState)
    (hIH : ∀ db, c.readDB fs = .ok db → Coherent db) :
    ∀ db', c.readDB (applyOp c op fs).2 = .ok db' → Coherent db' := by
  intro db' h'
  cases op with
  | ensureDB =>
      cases fs with
      | absent =>
          have hst : (applyOp c Op.ensureDB FSState.absent).2 =
              .file (jsonMarshal emptyDB) := by
            simp [applyOp, ensureDB_absent]
          rw [hst, readDB_jsonMarshal] at h'
          rw [← Except.ok.inj h']
          exact coherent_emptyDB
      | denied =>
          have hst : (applyOp c Op.ensureDB FSState.denied).2 = FSState.denied := by
            simp [applyOp, ensureDB_denied]
          rw [hst] at h'
          exact hIH db' h'
      | file d =>
          have hst : (applyOp c Op.ensureDB (FSState.file d)).2 = FSState.file d := by
            cases hj : jsonUnmarshal d with
            | ok db0 => simp [applyOp, ensureDB_file c d db0 hj]
            | error e0 => simp [applyOp, ensureDB_file_bad c d e0 hj]
          rw [hst] at h'
          exact hIH db' h'
  | createUser now em pw n a =>
      cases hr : c.readDB fs with
      | error e0 =>
          have hst : (applyOp c (Op.createUser now em pw n a) fs).2 = fs := by
            simp [applyOp, Client.CreateUser, hr]
          rw [hst] at h'
          exact hIH db' h'
      | ok db =>
          cases hm : mapGet db.users em with
          | some u =>
              have hst : (applyOp c (Op.createUser now em pw n a) fs).2 = fs := by
                simp [applyOp, Client.CreateUser, hr, hm]
              rw [hst] at h'
              exact hIH db' h'
          | none =>
              rcases updateDB_cases c
                  { db with users := mapSet db.users em ⟨now, em, pw, n, a⟩ } fs
                with hu | hu
              · have hst : (applyOp c (Op.createUser now em pw n a) fs).2 =
                    .file (jsonMarshal
                      { db with users := mapSet db.users em ⟨now, em, pw, n, a⟩ }) := by
                  simp [applyOp, Client.CreateUser, hr, hm, hu]
                rw [hst, readDB_jsonMarshal] at h'
                rw [← Except.ok.inj h']
                exact coherent_users_mapSet db (hIH db hr) em ⟨now, em, pw, n, a⟩ rfl
              · have hst : (applyOp c (Op.createUser now em pw n a) fs).2 = fs := by
                  simp [applyOp, Client.CreateUser, hr, hm, hu]
                rw [hst] at h'
                exact hIH db' h'
  | updateUser em pw n a =>
      cases hr : c.readDB fs with
      | error e0 =>
          have hst : (applyOp c (Op.updateUser em pw n a) fs).2 = fs := by
            simp [applyOp, Client.UpdateUser, hr]
          rw [hst] at h'
          exact hIH db' h'
      | ok db =>
          cases hm : mapGet db.users em with
          | none =>
              have hst : (applyOp c (Op.updateUser em pw n a) fs).2 = fs := by
                simp [applyOp, Client.UpdateUser, hr, hm]
              rw [hst] at h'
              exact hIH db' h'
          | some u0 =>
              rcases updateDB_cases c
                  { db with users :=
                      (if u0.email = em then
                        mapSet db.users em ⟨u0.createdAt, em, pw, n, a⟩
                      else
                        mapDel (mapSet db.users em ⟨u0.createdAt, em, pw, n, a⟩)
                          u0.email) } fs
                with hu | hu
              · have hst : (applyOp c (Op.updateUser em pw n a) fs).2 =
                    .file (jsonMarshal
                      { db with users :=
                          (if u0.email = em then
                            mapSet db.users em ⟨u0.createdAt, em, pw, n, a⟩
                          else
                            mapDel (mapSet db.users em ⟨u0.createdAt, em, pw, n, a⟩)
                              u0.email) }) := by
                  simp [applyOp, Client.UpdateUser, hr, hm, hu]
                rw [hst, readDB_jsonMarshal] at h'
                rw [← Except.ok.inj h']
                by_cases hce : u0.email = em
                · rw [if_pos hce]
                  exact coherent_users_mapSet db (hIH db hr) em
                    ⟨u0.createdAt, em, pw, n, a⟩ rfl
                · rw [if_neg hce]
                  exact coherent_users_mapDel
                    { db with users := mapSet db.users em ⟨u0.createdAt, em, pw, n, a⟩ }
                    (coherent_users_mapSet db (hIH db hr) em
                      ⟨u0.createdAt, em, pw, n, a⟩ rfl) u0.email
              · have hst : (applyOp c (Op.updateUser em pw n a) fs).2 = fs := by
                  simp [applyOp, Client.UpdateUser, hr, hm, hu]
                rw [hst] at h'
                exact hIH db' h'
  | getUser em =>
      have hst : (applyOp c (Op.getUser em) fs).2 = fs := by simp [applyOp]
      rw [hst] at h'
      exact hIH db' h'
  | deleteUser em =>
      cases hr : c.readDB fs with
      | error e0 =>
          have hst : (applyOp c (Op.deleteUser em) fs).2 = fs := by
            simp [applyOp, Client.DeleteUser, hr]
          rw [hst] at h'
          exact hIH db' h'
      | ok db =>
          cases hm : mapGet db.users em with
          | none =>
              have hst : (applyOp c (Op.deleteUser em) fs).2 = fs := by
                simp [applyOp, Client.DeleteUser, hr, hm]
              rw [hst] at h'
              exact hIH db' h'
          | some u =>
              rcases updateDB_cases c { db with users := mapDel db.users em } fs
                with hu | hu
              · have hst : (applyOp c (Op.deleteUser em) fs).2 =
                    .file (jsonMarshal { db with users := mapDel db.users em }) := by
                  simp [applyOp, Client.DeleteUser, hr, hm, hu]
                rw [hst, readDB_jsonMarshal] at h'
                rw [← Except.ok.inj h']
                exact coherent_users_mapDel db (hIH db hr) em
              · have hst : (applyOp c (Op.deleteUser em) fs).2 = fs := by
                  simp [applyOp, Client.DeleteUser, hr, hm, hu]
                rw [hst] at h'
                exact hIH db' h'
  | createPost now gid em tx =>
      cases hr : c.readDB fs with
      | error e0 =>
          have hst : (applyOp c (Op.createPost now gid em tx) fs).2 = fs := by
            simp [applyOp, Client.CreatePost, hr]
          rw [hst] at h'
          exact hIH db' h'
      | ok db =>
          cases hg : c.GetUser em fs with
          | error e0 =>
              have hst : (applyOp c (Op.createPost now gid em tx) fs).2 = fs := by
                simp [applyOp, Client.CreatePost, hr, hg]
              rw [hst] at h'
              exact hIH db' h'
          | ok u =>
              rcases updateDB_cases c
                  { db with posts := mapSet db.posts gid ⟨gid, now, em, tx⟩ } fs
                with hu | hu
              · have hst : (applyOp c (Op.createPost now gid em tx) fs).2 =
                    .file (jsonMarshal
                      { db with posts := mapSet db.posts gid ⟨gid, now, em, tx⟩ }) := by
                  simp [applyOp, Client.CreatePost, hr, hg, hu]
                rw [hst, readDB_jsonMarshal] at h'
                rw [← Except.ok.inj h']
                exact coherent_posts_mapSet db (hIH db hr) gid ⟨gid, now, em, tx⟩ rfl
              · have hst : (applyOp c (Op.createPost now gid em tx) fs).2 = fs := by
                  simp [applyOp, Client.CreatePost, hr, hg, hu]
                rw [hst] at h'
                exact hIH db' h'
  | getPost i =>
      have hst : (applyOp c (Op.getPost i) fs).2 = fs := by simp [applyOp]
      rw [hst] at h'
      exact hIH db' h'
  | getPosts em =>
      have hst : (applyOp c (Op.getPosts em) fs).2 = fs := by simp [applyOp]
      rw [hst] at h'
      exact hIH db' h'
  | deletePost i =>
      cases hr : c.readDB fs with
      | error e0 =>
          have hst : (applyOp c (Op.deletePost i) fs).2 = fs := by
            simp [applyOp, Client.DeletePost, hr]
          rw [hst] at h'
          exact hIH db' h'
      | ok db =>
          cases hm : mapGet db.posts i with
          | none =>
              have hst : (applyOp c (Op.deletePost i) fs).2 = fs := by
                simp [applyOp, Client.DeletePost, hr, hm]
              rw [hst] at h'
              exact hIH db' h'
          | some p =>
              rcases updateDB_cases c { db with posts := mapDel db.posts i } fs
                with hu | hu
              · have hst : (applyOp c (Op.deletePost i) fs).2 =
                    .file (jsonMarshal { db with posts := mapDel db.posts i }) := by
                  simp [applyOp, Client.DeletePost, hr, hm, hu]
                rw [hst, readDB_jsonMarshal] at h'
                rw [← Except.ok.inj h']
                exact coherent_posts_mapDel db (hIH db hr) i
              · have hst : (applyOp c (Op.deletePost i) fs).2 = fs := by
                  simp [applyOp, Client.DeletePost, hr, hm, hu]
                rw [hst] at h'
                exact hIH db' h'

/-- C10: key-field coherence is an invariant: on every file state
reachable from a document with two empty maps by store operations, every
users entry's key equals the stored user's email and every posts entry's
key equals the stored post's id. -/
theorem claim10_key_field_coherence (c : Client) (fs : FSState)
    (hr : Reach c fs) : ∀ db, c.readDB fs = .ok db → Coherent db := by
  induction hr with
  | init fs0 h0 =>
      intro db h
      rw [h0] at h
      rw [← Except.ok.inj h]
      exact coherent_emptyDB
  | step fs0 op h ih => exact applyOp_preserves_coherent c op fs0 ih

/-- C10 witness: the state reached from the empty document by one
`CreateUser` decodes to a coherent document. -/
theorem claim10_witness :
    Coherent ⟨[("a@x.com", ⟨0, "a@x.com", "pw", "Ann", 30⟩)], []⟩ :=
  claim10_key_field_coherence exC
    (applyOp exC (Op.createUser 0 "a@x.com" "pw" "Ann" 30)
      (FSState.file (jsonMarshal emptyDB))).2
    (Reach.step (FSState.file (jsonMarshal emptyDB))
      (Op.createUser 0 "a@x.com" "pw" "Ann" 30)
      (Reach.init (FSState.file (jsonMarshal emptyDB)) (by rfl)))
    ⟨[("a@x.com", ⟨0, "a@x.com", "pw", "Ann", 30⟩)], []⟩ (by rfl)
